import Mathlib

/-!
Verification of the `gopkgs` AWS wrapper (package `shared`).

The repository ships two iterations of the same wrapper:
* the `GetSecret` variant (files with `GetSecret` / `GetSingleSecret` /
  `GetQueueUrl` / `SendStringMessageToSqs` / `UploadFileToS3`), and
* the `GrabSecret` variant (files with `GrabSecret`).

Bytes are modelled as `Char` (one `Char` per byte; all payloads of interest
are ASCII), Go `error` values as strings (`GoErr`), and `map[string]string`
as an insertion-ordered association list (`GoMap`).  The provider SDK is an
external collaborator, so every wrapper function takes the provider response
as an explicit argument.
-/

abbrev GoErr := String

abbrev GoMap := List (String × String)

/-- The byte `0x7b` (opening curly brace). -/
def lbrace : Char := Char.ofNat 123

/-- The byte `0x7d` (closing curly brace). -/
def rbrace : Char := Char.ofNat 125

/-- The byte `0x22` (double quote). -/
def dquote : Char := Char.ofNat 34

/-- The byte `0x5c` (backslash). -/
def bslash : Char := Char.ofNat 92

/-- The byte `0x00` (NUL). -/
def nulChar : Char := Char.ofNat 0

/-- Go map assignment `m[k] = v`: overwrite the entry if the key is present,
otherwise append it.  (Go map iteration order is unspecified; the association
list keeps insertion order as a deterministic stand-in.) -/
def goMapSet (m : GoMap) (k v : String) : GoMap :=
  if m.any (fun kv => kv.1 == k) then
    m.map (fun kv => if kv.1 == k then (k, v) else kv)
  else m ++ [(k, v)]

/-- Go map read `m[k]` distinguishing presence. -/
def goMapGet (m : GoMap) (k : String) : Option String :=
  (m.find? (fun kv => kv.1 == k)).map (fun kv => kv.2)

/-- Go map read `m[k]`: a missing key yields the zero value `""`. -/
def goMapGetD (m : GoMap) (k : String) : String :=
  (goMapGet m k).getD ""

/-! ### `encoding/base64` (StdEncoding), as used by the wrapper

`base64.StdEncoding.Decode(dst, src)` consumes 4-character quanta, allows
`=` padding only at the end, rejects any other non-alphabet character, and
reports the number of bytes written together with an error for corrupt
input.  `decodeB64p` returns the decoded prefix and whether decoding
succeeded; a corrupt quantum contributes no bytes.
-/

def b64Index (c : Char) : Option Nat :=
  if 'A' ≤ c ∧ c ≤ 'Z' then some (c.toNat - 65)
  else if 'a' ≤ c ∧ c ≤ 'z' then some (c.toNat - 97 + 26)
  else if '0' ≤ c ∧ c ≤ '9' then some (c.toNat - 48 + 52)
  else if c = '+' then some 62
  else if c = '/' then some 63
  else none

/-- `base64.StdEncoding.DecodedLen(n)`: the destination-buffer size the Go
code allocates, `n / 4 * 3`. -/
def b64DecodedLen (n : Nat) : Nat := n / 4 * 3

def b64Byte1 (v1 v2 : Nat) : Char := Char.ofNat (v1 * 4 + v2 / 16)

def b64Byte2 (v2 v3 : Nat) : Char := Char.ofNat (v2 % 16 * 16 + v3 / 4)

def b64Byte3 (v3 v4 : Nat) : Char := Char.ofNat (v3 % 4 * 64 + v4)

/-- Standard base64 decoding: decoded bytes plus a success flag
(`false` models `CorruptInputError`). -/
def decodeB64p : List Char → List Char × Bool
  | [] => ([], true)
  | c1 :: c2 :: c3 :: c4 :: rest =>
    match b64Index c1, b64Index c2 with
    | some v1, some v2 =>
      if c3 = '=' then
        if c4 = '=' ∧ rest = [] then ([b64Byte1 v1 v2], true) else ([], false)
      else
        match b64Index c3 with
        | some v3 =>
          if c4 = '=' then
            if rest = [] then ([b64Byte1 v1 v2, b64Byte2 v2 v3], true)
            else ([], false)
          else
            match b64Index c4 with
            | some v4 =>
              let r := decodeB64p rest
              (b64Byte1 v1 v2 :: b64Byte2 v2 v3 :: b64Byte3 v3 v4 :: r.1, r.2)
            | none => ([], false)
        | none => ([], false)
    | _, _ => ([], false)
  | _ => ([], false)

/-- `base64.StdEncoding.Decode` viewed as a fallible function. -/
def decodeB64 (src : List Char) : Except Unit (List Char) :=
  let r := decodeB64p src
  if r.2 then Except.ok r.1 else Except.error ()

/-! ### `encoding/json` `Unmarshal` into `map[string]string`

A model of `json.Unmarshal(data, &config)` with `config : map[string]string`:
the payload must be a single JSON object whose values are all strings
(anything else is an unmarshalling error), duplicate keys overwrite, and
trailing non-whitespace input is an error.  On error Go leaves `config`
partially populated in some mid-object failure cases; the model reports only
the error.  Every theorem below that touches a failing unmarshal constrains
just the error component or uses an input that fails at its first token,
where Go also leaves the map empty.
-/

def isJsonWS (c : Char) : Bool :=
  c == ' ' || c == Char.ofNat 9 || c == Char.ofNat 10 || c == Char.ofNat 13

def skipWS (s : List Char) : List Char := s.dropWhile isJsonWS

def hexVal (c : Char) : Option Nat :=
  if '0' ≤ c ∧ c ≤ '9' then some (c.toNat - 48)
  else if 'a' ≤ c ∧ c ≤ 'f' then some (c.toNat - 97 + 10)
  else if 'A' ≤ c ∧ c ≤ 'F' then some (c.toNat - 65 + 10)
  else none

def escCharJson (e : Char) : Option Char :=
  if e = dquote then some dquote
  else if e = bslash then some bslash
  else if e = '/' then some '/'
  else if e = 'b' then some (Char.ofNat 8)
  else if e = 'f' then some (Char.ofNat 12)
  else if e = 'n' then some (Char.ofNat 10)
  else if e = 'r' then some (Char.ofNat 13)
  else if e = 't' then some (Char.ofNat 9)
  else none

/-- Parse the body of a JSON string (the opening quote already consumed),
returning the decoded characters and the input after the closing quote.
A lone `\u` surrogate decodes to U+FFFD as in Go. -/
def parseJString : List Char → Option (List Char × List Char)
  | [] => none
  | c :: rest =>
    if c = dquote then some ([], rest)
    else if c = bslash then
      match rest with
      | [] => none
      | e :: rest2 =>
        if e = 'u' then
          match rest2 with
          | h1 :: h2 :: h3 :: h4 :: rest3 =>
            match hexVal h1, hexVal h2, hexVal h3, hexVal h4 with
            | some a, some b, some x, some d =>
              let v := ((a * 16 + b) * 16 + x) * 16 + d
              let u := if 0xD800 ≤ v ∧ v ≤ 0xDFFF then Char.ofNat 0xFFFD
                       else Char.ofNat v
              match parseJString rest3 with
              | some (cs, r) => some (u :: cs, r)
              | none => none
            | _, _, _, _ => none
          | _ => none
        else
          match escCharJson e with
          | some u =>
            match parseJString rest2 with
            | some (cs, r) => some (u :: cs, r)
            | none => none
          | none => none
    else if c.toNat < 32 then none
    else
      match parseJString rest with
      | some (cs, r) => some (c :: cs, r)
      | none => none

/-- Parse the members of a JSON object (positioned at the start of a key),
accumulating into `m`; the fuel argument only bounds the recursion and is
always supplied larger than the input length. -/
def parseMembers : Nat → GoMap → List Char → Option (GoMap × List Char)
  | 0, _, _ => none
  | Nat.succ fuel, m, s =>
    match s with
    | [] => none
    | c :: rest =>
      if c = dquote then
        match parseJString rest with
        | none => none
        | some (k, r1) =>
          match skipWS r1 with
          | ':' :: r2 =>
            match skipWS r2 with
            | c2 :: r3 =>
              if c2 = dquote then
                match parseJString r3 with
                | none => none
                | some (v, r4) =>
                  let m2 := goMapSet m (String.mk k) (String.mk v)
                  match skipWS r4 with
                  | c3 :: r5 =>
                    if c3 = ',' then parseMembers fuel m2 (skipWS r5)
                    else if c3 = rbrace then some (m2, r5)
                    else none
                  | [] => none
              else none
            | [] => none
          | _ => none
      else none

/-- `json.Unmarshal(s, &config)` for `config : map[string]string`. -/
def jsonUnmarshalMapSS (s : List Char) : Except Unit GoMap :=
  match skipWS s with
  | [] => Except.error ()
  | c :: rest =>
    if c = lbrace then
      match skipWS rest with
      | [] => Except.error ()
      | c2 :: rest2 =>
        if c2 = rbrace then
          if (skipWS rest2).isEmpty then Except.ok [] else Except.error ()
        else
          match parseMembers (s.length + 1) [] (skipWS rest) with
          | some (m, rest3) =>
            if (skipWS rest3).isEmpty then Except.ok m else Except.error ()
          | none => Except.error ()
    else Except.error ()

/-! ### Provider (SDK) response types

Each wrapper function issues one SDK call; the SDK is external, so the
response (or the SDK error) is passed in explicitly.
-/

/-- `secretsmanager.GetSecretValueOutput`: exactly one of the string and
binary fields is populated per the provider contract; `SecretString` is a
`*string` (hence `Option`), `SecretBinary` a byte slice. -/
structure GetSecretValueOutput where
  secretString : Option String
  secretBinary : List Char
deriving DecidableEq

/-- `sqs.GetQueueUrlOutput`: `QueueUrl` is a `*string`. -/
structure GetQueueUrlOutput where
  queueUrl : Option String
deriving DecidableEq

/-- `sqs.SendMessageOutput`: `MessageId` is a `*string`. -/
structure SendMessageOutput where
  messageId : Option String
deriving DecidableEq

/-- `sqs.MessageAttributeValue` with its `DataType` and `StringValue`
fields. -/
structure MessageAttributeValue where
  dataType : String
  stringValue : String
deriving DecidableEq

/-- Outcome of running a Go function that may dereference a nil pointer:
either a normal return or a runtime panic. -/
inductive GoResult (α : Type) where
  | ok (a : α)
  | panic
deriving DecidableEq

/-- The `base64.CorruptInputError` returned by `Decode` (error values are
modelled as their message class). -/
def corruptInputErr : GoErr := "illegal base64 data"

/-- A `json.Unmarshal` error (error values are modelled as their message
class). -/
def jsonUnmarshalErr : GoErr := "json unmarshal error"

/-- The `os.Setenv` failure, `EINVAL` from the runtime. -/
def setenvInvalidErr : GoErr := "setenv: invalid argument"

/-! ### The `GetSecret` variant -/

/-- Lines 74–86 of the `GetSecret` variant: populate the local variables
`secretString` and `decodedBinarySecret`.  With a string payload,
`secretString` is set.  With a binary payload the base64 decode runs into
`decodedBinarySecret`; a decode error is only printed (the `return nil` is
commented out) and `decodedBinarySecret` is printed — `secretString` stays
`""` either way.  Returns the `secretString` variable that the subsequent
`json.Unmarshal` consumes, plus the printed lines. -/
def decodeSecretV2 (result : GetSecretValueOutput) : String × List String :=
  match result.secretString with
  | some s => (s, [])
  | none =>
    let r := decodeB64p result.secretBinary
    let decodedBinarySecret := String.mk r.1
    if r.2 then ("", [decodedBinarySecret])
    else ("", ["Base64 Decode Error:", decodedBinarySecret])

/-- Line 88 of the `GetSecret` variant: `json.Unmarshal([]byte(secretString),
&config)` with the error discarded, so a failed unmarshal leaves `config`
as created (empty; see the note on `jsonUnmarshalMapSS` about Go's partial
population, which no theorem below relies on). -/
def getSecretConfigV2 (result : GetSecretValueOutput) : GoMap :=
  match jsonUnmarshalMapSS (decodeSecretV2 result).1.data with
  | Except.ok config => config
  | Except.error _ => []

/-- `GetSecret` of the `GetSecret` variant: provider errors are returned
with the empty `config`; on provider success the unmarshal error is
discarded and `(config, nil)` is returned.  The third component collects
the `fmt.Println` output. -/
def GetSecret (resp : Except GoErr GetSecretValueOutput) :
    GoMap × Option GoErr × List String :=
  match resp with
  | Except.error e => ([], some e, [])
  | Except.ok result =>
    (getSecretConfigV2 result, none, (decodeSecretV2 result).2)

/-- `GetSingleSecret secretName value`: same retrieval and decode as
`GetSecret`, then returns `config[value]` — the zero value `""` when the
key is absent — and a nil error on provider success. -/
def GetSingleSecret (resp : Except GoErr GetSecretValueOutput)
    (value : String) : String × Option GoErr :=
  match resp with
  | Except.error e => ("", some e)
  | Except.ok result => (goMapGetD (getSecretConfigV2 result) value, none)

/-- `os.Setenv(key, value)` succeeds iff the pair is a legal environment
binding (non-empty key, no `=` or NUL in the key, no NUL in the value);
modelled from the Go runtime's `syscall.Setenv` checks. -/
def setenvOk (k v : String) : Bool :=
  !k.data.isEmpty && !(k.data.contains '=') && !(k.data.contains nulChar)
    && !(v.data.contains nulChar)

/-- The `for key, value := range config` loop of
`SetSecretToEnvironmentVariables`: set each binding, returning the first
`os.Setenv` error and stopping there; the environment is threaded
explicitly.  (Go iterates the map in unspecified order; the list order
stands in for whichever order occurs.) -/
def setenvLoop : GoMap → GoMap → GoMap × Option GoErr
  | [], env => (env, none)
  | (k, v) :: rest, env =>
    if setenvOk k v then setenvLoop rest (goMapSet env k v)
    else (env, some setenvInvalidErr)

/-- `SetSecretToEnvironmentVariables`: fetch the bundle via `GetSecret`,
propagate its error, otherwise run the setenv loop. -/
def SetSecretToEnvironmentVariables (resp : Except GoErr GetSecretValueOutput)
    (env : GoMap) : GoMap × Option GoErr :=
  match GetSecret resp with
  | (_, some err, _) => (env, some err)
  | (config, none, _) => setenvLoop config env

/-- `GetQueueUrl`: print the SDK error if any, then return
`*result.QueueUrl` — an unconditional pointer dereference, which panics
when the response carries no URL (the SDK leaves `QueueUrl` nil exactly
when it reports an error).  Second component: the printed lines. -/
def GetQueueUrl (result : GetQueueUrlOutput) (err : Option GoErr) :
    GoResult String × List String :=
  let log := match err with
    | some e => [e]
    | none => []
  match result.queueUrl with
  | some u => (GoResult.ok u, log)
  | none => (GoResult.panic, log)

/-- `SendStringMessageToSqs payload qURL`: provider error is returned as
`(nil, err)`; a response without `MessageId` yields the synthesized
"Message was not sent" error (returned alongside the nil id); otherwise
`(id, nil)`. -/
def SendStringMessageToSqs (payload : String) (qURL : String)
    (resp : Except GoErr SendMessageOutput) : Option String × Option GoErr :=
  match resp with
  | Except.error e => (none, some e)
  | Except.ok result =>
    match result.messageId with
    | none => (none, some ("Message was not sent. Payload" ++ payload))
    | some id => (some id, none)

/-- The attribute-conversion loop of `SendStringMessageWithAttributesToSqs`:
every value becomes a `String`-typed attribute via `fmt.Sprintf("%s", v)`
(the `interface` values are modelled as strings, on which `%s` is the
identity). -/
def messageAttributesOf (attributes : GoMap) :
    List (String × MessageAttributeValue) :=
  attributes.map (fun kv => (kv.1, MessageAttributeValue.mk "String" kv.2))

/-- `SendStringMessageWithAttributesToSqs`: builds the attribute map, then
behaves like `SendStringMessageToSqs`.  The built attributes are returned
as the first component (they are part of the request the model does not
transmit). -/
def SendStringMessageWithAttributesToSqs (payload : String) (qURL : String)
    (attributes : GoMap) (resp : Except GoErr SendMessageOutput) :
    List (String × MessageAttributeValue) × (Option String × Option GoErr) :=
  let messageAttributes := messageAttributesOf attributes
  match resp with
  | Except.error e => (messageAttributes, (none, some e))
  | Except.ok result =>
    match result.messageId with
    | none =>
      (messageAttributes, (none, some ("Message was not sent. Payload" ++ payload)))
    | some id => (messageAttributes, (some id, none))

/-- `strings.Split s (String sep)` for a one-character separator. -/
def goSplit (sep : Char) : List Char → List (List Char)
  | [] => [[]]
  | c :: rest =>
    if c = sep then [] :: goSplit sep rest
    else
      match goSplit sep rest with
      | [] => [[c]]
      | p :: ps => (c :: p) :: ps

/-- Lines 227–233 of `UploadFileToS3`: if the bucket name contains a colon,
split on `:` and keep `bucketParts[len(bucketParts)-1]`, else use the name
unchanged.  (`goSplit` never returns `[]`, so `getLastD` is the total
rendering of the index access.) -/
def cleanedUpBucketName (bucketName : List Char) : List Char :=
  if bucketName.contains ':' then (goSplit ':' bucketName).getLastD []
  else bucketName

/-! ### The `GrabSecret` variant -/

/-- `GrabSecret` of the `GrabSecret` variant: every decode failure is
returned to the caller.  On the binary path the code allocates a
`DecodedLen`-sized buffer and unmarshals the whole buffer (not the
`Decode`-reported prefix), hence the zero-byte padding. -/
def GrabSecret (resp : Except GoErr GetSecretValueOutput) :
    GoMap × Option GoErr :=
  match resp with
  | Except.error e => ([], some e)
  | Except.ok result =>
    match result.secretString with
    | some s =>
      match jsonUnmarshalMapSS s.data with
      | Except.ok config => (config, none)
      | Except.error _ => ([], some jsonUnmarshalErr)
    | none =>
      match decodeB64 result.secretBinary with
      | Except.error _ => ([], some corruptInputErr)
      | Except.ok ds =>
        let buf := ds ++ List.replicate
          (b64DecodedLen result.secretBinary.length - ds.length) nulChar
        match jsonUnmarshalMapSS buf with
        | Except.ok config => (config, none)
        | Except.error _ => ([], some jsonUnmarshalErr)

/-- The spec's reading of the bucket-name normalization: the suffix of the
name after its last `sep`, the whole name when `sep` does not occur. -/
def afterLastSep (sep : Char) (l : List Char) : List Char :=
  (l.reverse.takeWhile (fun c => c != sep)).reverse


/-! ### Helper lemmas -/

set_option maxHeartbeats 1000000 in
/-- A successful `Decode` consumes whole quanta; when the decoded length is
a multiple of three (no padding was present), it fills the allocated
`DecodedLen` buffer exactly. -/
theorem decodeB64p_ok_length (src : List Char) (h : (decodeB64p src).2 = true) :
    src.length % 4 = 0 ∧
      ((decodeB64p src).1.length % 3 = 0 →
        (decodeB64p src).1.length = src.length / 4 * 3) := by
  induction src using decodeB64p.induct <;> simp_all [decodeB64p]
  all_goals try omega
  split at h <;> simp_all

theorem takeWhile_append_eq (p : Char → Bool) (xs ys : List Char) :
    (xs ++ ys).takeWhile p =
      if xs.all p then xs ++ ys.takeWhile p else xs.takeWhile p := by
  induction xs with
  | nil => simp
  | cons x xs ih =>
    by_cases hx : p x
    · by_cases hall : xs.all p <;>
        simp [List.takeWhile_cons, hx, hall, ih]
    · simp [List.takeWhile_cons, hx, Bool.eq_false_iff.mpr hx]

theorem takeWhile_append_single (p : Char → Bool) (x : Char)
    (hx : p x = false) (xs : List Char) :
    (xs ++ [x]).takeWhile p = xs.takeWhile p := by
  rw [takeWhile_append_eq]
  by_cases hall : xs.all p
  · rw [if_pos hall, List.takeWhile_cons, hx]
    simp [List.takeWhile_eq_self_iff.mpr (by simpa [List.all_eq_true] using hall)]
  · rw [if_neg hall]

theorem goSplit_ne_nil (sep : Char) (l : List Char) : goSplit sep l ≠ [] := by
  cases l with
  | nil => simp [goSplit]
  | cons c rest =>
    by_cases hc : c = sep
    · simp [goSplit, hc]
    · simp only [goSplit, if_neg hc]
      cases goSplit sep rest <;> simp

theorem goSplit_no_sep (sep : Char) (l : List Char) (h : sep ∉ l) :
    goSplit sep l = [l] := by
  induction l with
  | nil => rfl
  | cons c rest ih =>
    have hc : ¬c = sep := by rintro rfl; exact h (List.mem_cons_self _ _)
    have hr : sep ∉ rest := fun hm => h (List.mem_cons_of_mem _ hm)
    simp [goSplit, hc, ih hr]

theorem goSplit_mem_sep (sep : Char) (l : List Char) (h : sep ∈ l) :
    ∃ p ps, goSplit sep l = p :: ps ∧ ps ≠ [] := by
  induction l with
  | nil => cases h
  | cons c rest ih =>
    by_cases hc : c = sep
    · exact ⟨[], goSplit sep rest, by simp [goSplit, hc], goSplit_ne_nil sep rest⟩
    · have hr : sep ∈ rest := by
        cases List.mem_cons.mp h with
        | inl h1 => exact absurd h1.symm hc
        | inr h2 => exact h2
      obtain ⟨p, ps, hsplit, hps⟩ := ih hr
      exact ⟨c :: p, ps, by simp [goSplit, hc, hsplit], hps⟩

theorem goSplit_getLastD (sep : Char) (l : List Char) :
    (goSplit sep l).getLastD [] = afterLastSep sep l := by
  induction l with
  | nil => rfl
  | cons c rest ih =>
    by_cases hc : c = sep
    · subst hc
      have hstep : ∀ r : List (List Char),
          (([] : List Char) :: r).getLastD [] = r.getLastD [] := by
        intro r
        cases r with
        | nil => rfl
        | cons q qs => simp [List.getLastD_cons]
      calc (goSplit c (c :: rest)).getLastD []
          = (([] :: goSplit c rest)).getLastD [] := by
            simp [goSplit]
        _ = (goSplit c rest).getLastD [] := hstep _
        _ = afterLastSep c rest := ih
        _ = afterLastSep c (c :: rest) := by
            simp only [afterLastSep, List.reverse_cons]
            rw [takeWhile_append_single _ c (by simp) rest.reverse]
    · by_cases hm : sep ∈ rest
      · obtain ⟨p, ps, hsplit, hps⟩ := goSplit_mem_sep sep rest hm
        cases ps with
        | nil => exact absurd rfl hps
        | cons q qs =>
          have hL : (goSplit sep (c :: rest)).getLastD [] =
              (goSplit sep rest).getLastD [] := by
            simp only [goSplit, if_neg hc, hsplit]
            simp [List.getLastD_cons]
          have hall : (rest.reverse.all (fun x => x != sep)) = false := by
            rcases Bool.eq_false_or_eq_true (rest.reverse.all (fun x => x != sep)) with h1 | h0
            · exfalso
              have := (List.all_eq_true.mp h1) sep (by simpa using hm)
              simp at this
            · exact h0
          have hR : afterLastSep sep (c :: rest) = afterLastSep sep rest := by
            simp only [afterLastSep, List.reverse_cons]
            rw [takeWhile_append_eq, hall]
            simp
          rw [hL, hR, ih]
      · have hsplit := goSplit_no_sep sep rest hm
        have hL : (goSplit sep (c :: rest)).getLastD [] = c :: rest := by
          simp [goSplit, if_neg hc, hsplit]
        have hall : (rest.reverse.all (fun x => x != sep)) = true := by
          rw [List.all_eq_true]
          intro x hx
          simp only [bne_iff_ne, ne_eq]
          rintro rfl
          exact hm (by simpa using hx)
        have hR : afterLastSep sep (c :: rest) = c :: rest := by
          simp only [afterLastSep, List.reverse_cons]
          rw [takeWhile_append_eq, hall]
          simp [List.takeWhile_cons, bne_iff_ne, hc]
        rw [hL, hR]

/-! ### Claims -/

/-- Shared evaluation fact: on a binary payload the `GetSecret` variant
unmarshals the still-empty `secretString` variable, so the returned
`config` is empty whatever the payload holds. -/
theorem getSecretConfigV2_binary (bin : List Char) :
    getSecretConfigV2 (GetSecretValueOutput.mk none bin) = [] := by
  cases hr : (decodeB64p bin).2 <;>
    simp [getSecretConfigV2, decodeSecretV2, hr, jsonUnmarshalMapSS, skipWS]

/-- C4: a provider response whose string payload is the JSON object with
entries A→1 and B→2 makes both `GetSecret` and `GrabSecret` return exactly
those two entries with a nil error (whatever the unused binary field holds). -/
theorem c4_string_payload_two_entries (bin : List Char) :
    GetSecret (Except.ok (GetSecretValueOutput.mk
        (some "\x7b\"A\":\"1\",\"B\":\"2\"\x7d") bin)) =
      ([("A", "1"), ("B", "2")], none, []) ∧
    GrabSecret (Except.ok (GetSecretValueOutput.mk
        (some "\x7b\"A\":\"1\",\"B\":\"2\"\x7d") bin)) =
      ([("A", "1"), ("B", "2")], none) := by
  exact ⟨rfl, rfl⟩

/-- C9: in the `GetSecret` variant a binary payload is only printed, never
parsed — the unmarshal runs on the empty `secretString` — so `GetSecret`
returns an empty bundle with nil error and `GetSingleSecret` returns `""`
with nil error, for every binary payload and every requested field. -/
theorem c9_binary_payload_never_parsed (bin : List Char) (value : String) :
    (GetSecret (Except.ok (GetSecretValueOutput.mk none bin))).1 = [] ∧
    (GetSecret (Except.ok (GetSecretValueOutput.mk none bin))).2.1 = none ∧
    GetSingleSecret (Except.ok (GetSecretValueOutput.mk none bin)) value =
      ("", none) := by
  refine ⟨getSecretConfigV2_binary bin, rfl, ?_⟩
  simp [GetSingleSecret, goMapGetD, goMapGet, getSecretConfigV2_binary bin]

/-- C6: both send functions return the provider error unchanged when the
call fails, and synthesize a "Message was not sent" error when the call
succeeds without a message identifier. -/
theorem c6_send_message_errors (payload qURL e : String) (attributes : GoMap) :
    SendStringMessageToSqs payload qURL (Except.error e) = (none, some e) ∧
    SendStringMessageToSqs payload qURL (Except.ok (SendMessageOutput.mk none)) =
      (none, some ("Message was not sent. Payload" ++ payload)) ∧
    (SendStringMessageWithAttributesToSqs payload qURL attributes
        (Except.error e)).2 = (none, some e) ∧
    (SendStringMessageWithAttributesToSqs payload qURL attributes
        (Except.ok (SendMessageOutput.mk none))).2 =
      (none, some ("Message was not sent. Payload" ++ payload)) := by
  exact ⟨rfl, rfl, rfl, rfl⟩

/-- C5: when the decoded bundle has no entry for the requested field,
`GetSingleSecret` returns the empty string with a nil error, provided the
provider call succeeded. -/
theorem c5_missing_field_empty_no_error (result : GetSecretValueOutput)
    (value : String) (h : goMapGet (getSecretConfigV2 result) value = none) :
    GetSingleSecret (Except.ok result) value = ("", none) := by
  simp [GetSingleSecret, goMapGetD, h]

/-- C5 witness: a bundle holding only the key A, queried for X. -/
theorem c5_missing_field_witness :
    GetSingleSecret (Except.ok (GetSecretValueOutput.mk
        (some "\x7b\"A\":\"1\"\x7d") [])) "X" = ("", none) :=
  c5_missing_field_empty_no_error _ "X" (by decide)

/-- C2 counterexample: on a provider error the SDK leaves `QueueUrl` nil,
and `GetQueueUrl` dereferences it — the call panics instead of returning a
zero-value result. -/
theorem c2_counterexample :
    (GetQueueUrl (GetQueueUrlOutput.mk none)
        (some "AWS.SimpleQueueService.NonExistentQueue")).1 =
      GoResult.panic := rfl

/-- C2 (amended): on a provider error `GetQueueUrl` prints the error and
then unconditionally dereferences `result.QueueUrl`; since the error
response carries no URL, the function panics (nil dereference) rather than
returning any value to the caller. -/
theorem c2_queue_url_error_logs_then_panics (e : String) :
    GetQueueUrl (GetQueueUrlOutput.mk none) (some e) =
      (GoResult.panic, [e]) := rfl

/-- C7: the bucket-name normalization keeps exactly the suffix after the
last colon when a colon occurs and leaves the name unchanged otherwise; on
the ARN `arn:aws:s3:::my-bucket` it yields `my-bucket`. -/
theorem c7_bucket_name_normalization (bucketName : List Char) :
    cleanedUpBucketName bucketName =
      (if bucketName.contains ':' then afterLastSep ':' bucketName
       else bucketName) ∧
    cleanedUpBucketName "arn:aws:s3:::my-bucket".data = "my-bucket".data := by
  constructor
  · unfold cleanedUpBucketName
    by_cases h : bucketName.contains ':'
    · rw [if_pos h, if_pos h, goSplit_getLastD]
    · rw [if_neg h, if_neg h]
  · decide

/-- Normalized bucket names are colon-free. -/
theorem cleanedUpBucketName_no_colon (s : List Char) :
    (cleanedUpBucketName s).contains ':' = false := by
  unfold cleanedUpBucketName
  by_cases h : s.contains ':'
  · rw [if_pos h, goSplit_getLastD]
    rcases Bool.eq_false_or_eq_true ((afterLastSep ':' s).contains ':') with h1 | h0
    swap
    · exact h0
    · exfalso
      have hmem : ':' ∈ afterLastSep ':' s := by simpa using h1
      have hmem2 : ':' ∈ (s.reverse.takeWhile (fun c => c != ':')) := by
        simpa [afterLastSep] using hmem
      have := List.mem_takeWhile_imp hmem2
      simp at this
  · rw [if_neg h]
    exact Bool.eq_false_iff.mpr h

/-- C10: the bucket-name normalization is idempotent, its output never
contains a colon, and a name ending in a colon normalizes to the empty
string. -/
theorem c10_normalization_algebra (s t : List Char) :
    cleanedUpBucketName (cleanedUpBucketName s) = cleanedUpBucketName s ∧
    (cleanedUpBucketName s).contains ':' = false ∧
    cleanedUpBucketName (t ++ [':']) = [] := by
  refine ⟨?_, cleanedUpBucketName_no_colon s, ?_⟩
  · have h := cleanedUpBucketName_no_colon s
    generalize cleanedUpBucketName s = u at h ⊢
    unfold cleanedUpBucketName
    rw [if_neg (by rw [h]; exact Bool.false_ne_true)]
  · have hmem : (t ++ [':']).contains ':' = true := by
      simp
    unfold cleanedUpBucketName
    rw [if_pos hmem, goSplit_getLastD]
    simp [afterLastSep, List.takeWhile_cons]

/-- C1 counterexample: the standard base64 encoding of the X→y object,
fed to the `GetSecret` variant as a binary payload, does not produce the
X→y bundle (the decoded bytes are only printed, never parsed). -/
theorem c1_counterexample :
    decodeB64 "eyJYIjoieSJ9".data = Except.ok "\x7b\"X\":\"y\"\x7d".data ∧
    (GetSecret (Except.ok (GetSecretValueOutput.mk none
        "eyJYIjoieSJ9".data))).1 ≠ [("X", "y")] := by
  exact ⟨rfl, by decide⟩

/-- C1 (amended): for every binary payload that base64-decodes to the X→y
object, `GrabSecret` returns the X→y bundle with nil error, while the
`GetSecret` variant returns the empty bundle with nil error. -/
theorem c1_binary_bundle (bin : List Char)
    (h : decodeB64 bin = Except.ok "\x7b\"X\":\"y\"\x7d".data) :
    GrabSecret (Except.ok (GetSecretValueOutput.mk none bin)) =
      ([("X", "y")], none) ∧
    (GetSecret (Except.ok (GetSecretValueOutput.mk none bin))).1 = [] ∧
    (GetSecret (Except.ok (GetSecretValueOutput.mk none bin))).2.1 = none := by
  refine ⟨?_, getSecretConfigV2_binary bin, rfl⟩
  have hb : (decodeB64p bin).2 = true := by
    rcases Bool.eq_false_or_eq_true (decodeB64p bin).2 with h0 | h1
    · exact h0
    · simp [decodeB64, h1] at h
  have hds : (decodeB64p bin).1 = "\x7b\"X\":\"y\"\x7d".data := by
    simpa [decodeB64, hb] using h
  have hlen := decodeB64p_ok_length bin hb
  have h9 : (decodeB64p bin).1.length = 9 := by rw [hds]; rfl
  have hdl : b64DecodedLen bin.length = 9 := by
    have := hlen.2 (by rw [h9])
    unfold b64DecodedLen
    omega
  simp only [GrabSecret, h, hdl, hds, h9]
  norm_num
  decide

/-- C1 witness: the concrete standard encoding of the X→y object. -/
theorem c1_binary_bundle_witness :
    GrabSecret (Except.ok (GetSecretValueOutput.mk none
        "eyJYIjoieSJ9".data)) = ([("X", "y")], none) :=
  (c1_binary_bundle "eyJYIjoieSJ9".data rfl).1

/-- C3 counterexample: `"!!!!"` is corrupt base64 and `"x"` is malformed
JSON, yet the `GetSecret` variant returns a nil error for both. -/
theorem c3_counterexample :
    decodeB64 "!!!!".data = Except.error () ∧
    (GetSecret (Except.ok (GetSecretValueOutput.mk none "!!!!".data))).2.1 =
      none ∧
    jsonUnmarshalMapSS "x".data = Except.error () ∧
    (GetSecret (Except.ok (GetSecretValueOutput.mk (some "x") []))).2.1 =
      none := by
  exact ⟨rfl, rfl, rfl, rfl⟩

/-- C3 (amended): `GrabSecret` surfaces every decode failure as an error —
corrupt base64 on the binary path, malformed JSON on the string path, and
malformed JSON after a successful binary decode — while the `GetSecret`
variant swallows both failure kinds and returns a nil error. -/
theorem c3_decode_failures (bin bin2 : List Char) (s : String) (ds : List Char)
    (hb : decodeB64 bin = Except.error ())
    (hj : jsonUnmarshalMapSS s.data = Except.error ())
    (hb2 : decodeB64 bin2 = Except.ok ds)
    (hj2 : jsonUnmarshalMapSS
      (ds ++ List.replicate (b64DecodedLen bin2.length - ds.length) nulChar) =
        Except.error ()) :
    GrabSecret (Except.ok (GetSecretValueOutput.mk none bin)) =
      ([], some corruptInputErr) ∧
    (GrabSecret (Except.ok (GetSecretValueOutput.mk (some s) bin))).2 =
      some jsonUnmarshalErr ∧
    (GrabSecret (Except.ok (GetSecretValueOutput.mk none bin2))).2 =
      some jsonUnmarshalErr ∧
    (GetSecret (Except.ok (GetSecretValueOutput.mk none bin))).2.1 = none ∧
    (GetSecret (Except.ok (GetSecretValueOutput.mk (some s) bin))).2.1 =
      none := by
  refine ⟨?_, ?_, ?_, rfl, rfl⟩
  · simp [GrabSecret, hb]
  · simp [GrabSecret, hj]
  · simp [GrabSecret, hb2, hj2]

/-- C3 witness: corrupt base64 `"!!!!"`, malformed JSON `"x"`, and the
padded encoding of an X→y object followed by a newline, whose decode
succeeds but whose over-allocated unmarshal buffer is rejected. -/
theorem c3_decode_failures_witness :
    GrabSecret (Except.ok (GetSecretValueOutput.mk none "!!!!".data)) =
      ([], some corruptInputErr) ∧
    (GrabSecret (Except.ok (GetSecretValueOutput.mk (some "x") []))).2 =
      some jsonUnmarshalErr ∧
    (GrabSecret (Except.ok (GetSecretValueOutput.mk none
        "eyJYIjoieSJ9Cg==".data))).2 = some jsonUnmarshalErr := by
  have h := c3_decode_failures "!!!!".data "eyJYIjoieSJ9Cg==".data "x"
    (decodeB64p "eyJYIjoieSJ9Cg==".data).1 rfl rfl rfl rfl
  exact ⟨h.1, h.2.1, h.2.2.1⟩

/-- C8: the environment loop sets every bundle entry when all succeed;
on the first entry `os.Setenv` rejects, it stops, returns that error, and
the entries already set stay set (no rollback); plus the glue between
`SetSecretToEnvironmentVariables`, `GetSecret`, and the loop. -/
theorem c8_setenv_stops_no_rollback :
    (∀ (config env : GoMap), (∀ kv ∈ config, setenvOk kv.1 kv.2 = true) →
      setenvLoop config env =
        (config.foldl (fun e kv => goMapSet e kv.1 kv.2) env, none)) ∧
    (∀ (pre : GoMap) (k v : String) (rest env : GoMap),
      (∀ kv ∈ pre, setenvOk kv.1 kv.2 = true) → setenvOk k v = false →
      setenvLoop (pre ++ (k, v) :: rest) env =
        (pre.foldl (fun e kv => goMapSet e kv.1 kv.2) env,
          some setenvInvalidErr)) ∧
    (∀ (result : GetSecretValueOutput) (env : GoMap),
      SetSecretToEnvironmentVariables (Except.ok result) env =
        setenvLoop (getSecretConfigV2 result) env) ∧
    (∀ (e : GoErr) (env : GoMap),
      SetSecretToEnvironmentVariables (Except.error e) env =
        (env, some e)) := by
  refine ⟨?_, ?_, fun result env => rfl, fun e env => rfl⟩
  · intro config
    induction config with
    | nil => intro env _; rfl
    | cons kv rest ih =>
      intro env hall
      obtain ⟨k, v⟩ := kv
      have hk : setenvOk k v = true := hall (k, v) (List.mem_cons_self _ _)
      simp only [setenvLoop, hk, if_pos, List.foldl_cons]
      exact ih (goMapSet env k v)
        (fun kv2 h2 => hall kv2 (List.mem_cons_of_mem _ h2))
  · intro pre k v rest
    induction pre with
    | nil =>
      intro env _ hkv
      simp [setenvLoop, hkv]
    | cons kv pre2 ih =>
      intro env hall hkv
      obtain ⟨k2, v2⟩ := kv
      have hk2 : setenvOk k2 v2 = true := hall (k2, v2) (List.mem_cons_self _ _)
      simp only [List.cons_append, setenvLoop, hk2, if_pos, List.foldl_cons]
      exact ih (goMapSet env k2 v2)
        (fun kv2 h2 => hall kv2 (List.mem_cons_of_mem _ h2)) hkv

/-- C8 witness: five entries, the third of which has an `=` in its key;
the first two stay set, the error is returned, entries four and five are
never reached. -/
theorem c8_setenv_witness :
    setenvLoop [("A", "1"), ("B", "2"), ("BAD=KEY", "3"), ("D", "4"),
        ("E", "5")] [] = ([("A", "1"), ("B", "2")], some setenvInvalidErr) := by
  have h2 : ([("A", "1"), ("B", "2"), ("BAD=KEY", "3"), ("D", "4"),
      ("E", "5")] : GoMap) =
      [("A", "1"), ("B", "2")] ++ ("BAD=KEY", "3") :: [("D", "4"), ("E", "5")] :=
    rfl
  rw [h2, c8_setenv_stops_no_rollback.2.1 [("A", "1"), ("B", "2")] "BAD=KEY"
    "3" [("D", "4"), ("E", "5")] [] (by decide) (by decide)]
  decide
